import Mathlib

/-!
Shallow embedding of `src/Project1/schedulers.go`.

The Go file defines a `Process` record and four scheduling functions
(`FCFSSchedule`, `SJFSchedule`, `SJFPrioritySchedule`, `RRSchedule`).
Each Go function computes, per process, a waiting time, a turnaround time
and (except RR) a completion time, accumulates aggregate totals, and hands
rows and aggregates to rendering helpers (`outputTitle`, `outputGantt`,
`outputSchedule`).  Rendering, string formatting and the Gantt time slices
are presentation artifacts outside the claims; the embedding models the
metric computations.  Go `int64` arithmetic is modelled by `Int` (no claim
approaches the 64-bit range), and the `float64` aggregates, which are exact
integer sums divided by a count, are modelled by `Rat`.
-/

/-- The `Process` struct of the source.  `RemainingTime` and `Index` are the
two vestigial bookkeeping fields; no policy reads them. -/
structure Process where
  ProcessID : String
  ArrivalTime : Int
  BurstDuration : Int
  Priority : Int
  RemainingTime : Int
  Index : Int
deriving Repr, DecidableEq

/-- One row of the `schedule` table built by `FCFSSchedule`, `SJFSchedule`
and `SJFPrioritySchedule`: the seven columns those functions print
(`fmt.Sprint` of each value), kept as numbers. -/
structure MetricsRow where
  ProcessID : String
  Priority : Int
  BurstDuration : Int
  ArrivalTime : Int
  WaitingTime : Int
  TurnaroundTime : Int
  CompletionTime : Int
deriving Repr, DecidableEq

/-- One row of the `schedule` table built by `RRSchedule`: the source emits
only six columns there, with no completion column. -/
structure RRRow where
  ProcessID : String
  Priority : Int
  BurstDuration : Int
  ArrivalTime : Int
  WaitingTime : Int
  TurnaroundTime : Int
deriving Repr, DecidableEq

/-- The per-process mutable arrays of `RRSchedule` (`remainingTime`,
`arrivalTime`, `turnaroundTime`), gathered by index. -/
structure RRState where
  remainingTime : Int
  arrivalTime : Int
  turnaroundTime : Int
deriving Repr, DecidableEq

/-- Output of `RRSchedule`: the table rows and the final clock value
`currentTime` (the throughput divisor). -/
structure RROutput where
  rows : List RRRow
  currentTime : Int
deriving Repr, DecidableEq

/-- The three aggregate statistics every policy computes at the end. -/
structure Aggregates where
  aveWait : ℚ
  aveTurnaround : ℚ
  throughput : ℚ
deriving Repr, DecidableEq

/-- The comparison used by the `sort.Slice` calls of `SJFSchedule`,
`SJFPrioritySchedule` and `RRSchedule`: ascending `BurstDuration`. -/
def burstLE (a b : Process) : Prop := a.BurstDuration ≤ b.BurstDuration

instance : DecidableRel burstLE := fun a b => Int.decLe _ _

instance : IsTotal Process burstLE := ⟨fun a b => Int.le_total _ _⟩

instance : IsTrans Process burstLE := ⟨fun _ _ _ hab hbc => le_trans hab hbc⟩

/-- The in-place `sort.Slice(processes, BurstDuration <)` of the source,
modelled as returning the sorted list.  Go `sort.Slice` leaves tie order
unspecified; insertion sort realises one admissible order (the stable one
the spec recommends). -/
def sortByBurst (ps : List Process) : List Process :=
  List.insertionSort burstLE ps

/-- The loop body of `FCFSSchedule`, threading the two mutable locals
`serviceTime` and `waitingTime` and emitting one `schedule` row per
process.  Mirrors lines 67-97 of the source: when `ArrivalTime > 0` the
waiting time is recomputed as `serviceTime - ArrivalTime`, otherwise the
value left over from the previous iteration is reused. -/
def fcfsRun (serviceTime waitingTime : Int) : List Process → List MetricsRow
  | [] => []
  | p :: rest =>
    let w := if p.ArrivalTime > 0 then serviceTime - p.ArrivalTime else waitingTime
    { ProcessID := p.ProcessID
      Priority := p.Priority
      BurstDuration := p.BurstDuration
      ArrivalTime := p.ArrivalTime
      WaitingTime := w
      TurnaroundTime := p.BurstDuration + w
      CompletionTime := p.BurstDuration + p.ArrivalTime + w }
      :: fcfsRun (serviceTime + p.BurstDuration) w rest

/-- `FCFSSchedule` of the source: no sort, both locals start at 0. -/
def FCFSSchedule (ps : List Process) : List MetricsRow :=
  fcfsRun 0 0 ps

/-- The loop body of `SJFSchedule`, identical to `fcfsRun` except that a
negative recomputed waiting time is reset to 0 (lines 126-134). -/
def sjfRun (serviceTime waitingTime : Int) : List Process → List MetricsRow
  | [] => []
  | p :: rest =>
    let w := if p.ArrivalTime > 0 then
        (let t := serviceTime - p.ArrivalTime; if t < 0 then 0 else t)
      else waitingTime
    { ProcessID := p.ProcessID
      Priority := p.Priority
      BurstDuration := p.BurstDuration
      ArrivalTime := p.ArrivalTime
      WaitingTime := w
      TurnaroundTime := p.BurstDuration + w
      CompletionTime := p.BurstDuration + p.ArrivalTime + w }
      :: sjfRun (serviceTime + p.BurstDuration) w rest

/-- `SJFSchedule` of the source: sort ascending by burst, then the clamped
clock-advancement loop. -/
def SJFSchedule (ps : List Process) : List MetricsRow :=
  sjfRun 0 0 (sortByBurst ps)

/-- The loop body of `SJFPrioritySchedule`: like `sjfRun`, but first the
clock is advanced to the arrival time when it is behind
(`if ArrivalTime > serviceTime { serviceTime = ArrivalTime }`,
lines 189-191). -/
def sjfPriorityRun (serviceTime waitingTime : Int) : List Process → List MetricsRow
  | [] => []
  | p :: rest =>
    let st := if p.ArrivalTime > serviceTime then p.ArrivalTime else serviceTime
    let w := if p.ArrivalTime > 0 then
        (let t := st - p.ArrivalTime; if t < 0 then 0 else t)
      else waitingTime
    { ProcessID := p.ProcessID
      Priority := p.Priority
      BurstDuration := p.BurstDuration
      ArrivalTime := p.ArrivalTime
      WaitingTime := w
      TurnaroundTime := p.BurstDuration + w
      CompletionTime := p.BurstDuration + p.ArrivalTime + w }
      :: sjfPriorityRun (st + p.BurstDuration) w rest

/-- `SJFPrioritySchedule` of the source: same sort as SJF, then the
idle-aware loop. -/
def SJFPrioritySchedule (ps : List Process) : List MetricsRow :=
  sjfPriorityRun 0 0 (sortByBurst ps)

/-- Initialisation loop of `RRSchedule`: `remainingTime[i] = BurstDuration;
arrivalTime[i] = ArrivalTime`; `turnaroundTime[i]` starts at its zero
value. -/
def rrInit (ps : List Process) : List RRState :=
  ps.map fun p => ⟨p.BurstDuration, p.ArrivalTime, 0⟩

/-- One scan of the inner `for i` loop of `RRSchedule` (lines 264-277):
every entry with positive remaining time is executed to completion
(`currentTime += remainingTime[i]; turnaroundTime[i] = currentTime -
arrivalTime[i]; remainingTime[i] = 0`) and clears the `done` flag.
Returns the new clock, the new array contents and the `done` flag. -/
def rrPass (currentTime : Int) : List RRState → Int × List RRState × Bool
  | [] => (currentTime, [], true)
  | x :: xs =>
    if 0 < x.remainingTime then
      let t := currentTime + x.remainingTime
      let x' : RRState := { x with turnaroundTime := t - x.arrivalTime, remainingTime := 0 }
      let r := rrPass t xs
      (r.1, x' :: r.2.1, false)
    else
      let r := rrPass currentTime xs
      (r.1, x :: r.2.1, r.2.2)

/-- Number of entries the scan would still execute: size of the positive
remaining times.  Termination measure of the outer loop. -/
def posCount (items : List RRState) : Nat :=
  (items.filter fun x => decide (0 < x.remainingTime)).length

theorem rrPass_posCount (t : Int) (items : List RRState) :
    posCount (rrPass t items).2.1 = 0 := by
  induction items generalizing t with
  | nil => simp [rrPass, posCount]
  | cons x xs ih =>
    by_cases h : 0 < x.remainingTime <;>
      simp [rrPass, h, posCount, List.filter] at ih ⊢ <;>
      simpa [posCount, List.filter] using ih _

theorem rrPass_done_iff (t : Int) (items : List RRState) :
    (rrPass t items).2.2 = true ↔ posCount items = 0 := by
  induction items generalizing t with
  | nil => simp [rrPass, posCount]
  | cons x xs ih =>
    by_cases h : 0 < x.remainingTime
    · simp [rrPass, h, posCount, List.filter, decide_eq_true_eq]
    · simp only [rrPass, h, if_neg, posCount, List.filter] at ih ⊢
      simp [h, ih t]

theorem rrPass_of_posCount_zero (t : Int) (items : List RRState)
    (h : posCount items = 0) : rrPass t items = (t, items, true) := by
  induction items generalizing t with
  | nil => simp [rrPass]
  | cons x xs ih =>
    simp only [posCount, List.filter] at h
    by_cases hx : 0 < x.remainingTime
    · simp [hx] at h
    · simp only [rrPass, hx, if_neg, not_false_iff]
      simp only [hx, decide_eq_true_eq, if_neg, not_false_iff] at h
      simp [ih t (by simpa [posCount] using h)]

/-- The outer `for { ... if done { break } }` loop of `RRSchedule`
(lines 264-281): scan, and stop once a scan found nothing to execute. -/
def rrLoop (currentTime : Int) (items : List RRState) : Int × List RRState :=
  let r := rrPass currentTime items
  if h : r.2.2 = true then (currentTime, items)
  else rrLoop r.1 r.2.1
termination_by posCount items
decreasing_by
  have h0 : posCount (rrPass currentTime items).2.1 = 0 := rrPass_posCount _ _
  have h1 : posCount items ≠ 0 := fun hc => h ((rrPass_done_iff _ _).mpr hc)
  omega

theorem rrLoop_eq_pass (t : Int) (items : List RRState) :
    rrLoop t items = ((rrPass t items).1, (rrPass t items).2.1) := by
  rw [rrLoop]
  by_cases h : (rrPass t items).2.2 = true
  · have h0 : posCount items = 0 := (rrPass_done_iff t items).mp h
    simp [h, rrPass_of_posCount_zero t items h0]
  · rw [dif_neg h, rrLoop]
    have h0 : posCount (rrPass t items).2.1 = 0 := rrPass_posCount t items
    have h1 := rrPass_of_posCount_zero (rrPass t items).1 (rrPass t items).2.1 h0
    simp [h1]

/-- `RRSchedule` of the source: sort ascending by burst, initialise the
arrays, run the repeat-until-done loop, then derive
`waitingTime[i] = turnaroundTime[i] - BurstDuration` and emit the
six-column rows together with the final clock. -/
def RRSchedule (ps : List Process) : RROutput :=
  let sorted := sortByBurst ps
  let result := rrLoop 0 (rrInit sorted)
  { rows := sorted.zipWith (fun p st =>
      { ProcessID := p.ProcessID
        Priority := p.Priority
        BurstDuration := p.BurstDuration
        ArrivalTime := p.ArrivalTime
        WaitingTime := st.turnaroundTime - p.BurstDuration
        TurnaroundTime := st.turnaroundTime }) result.2
    currentTime := result.1 }

/-- Same as `RRSchedule` but with a single scan in place of the loop; used
to evaluate `RRSchedule` on concrete inputs through `RRSchedule_eq_onePass`
(well-founded recursion does not reduce in the kernel). -/
def rrOnePassResult (ps : List Process) : RROutput :=
  let sorted := sortByBurst ps
  let result := rrPass 0 (rrInit sorted)
  { rows := sorted.zipWith (fun p st =>
      { ProcessID := p.ProcessID
        Priority := p.Priority
        BurstDuration := p.BurstDuration
        ArrivalTime := p.ArrivalTime
        WaitingTime := st.turnaroundTime - p.BurstDuration
        TurnaroundTime := st.turnaroundTime }) result.2.1
    currentTime := result.1 }

theorem RRSchedule_eq_onePass (ps : List Process) :
    RRSchedule ps = rrOnePassResult ps := by
  simp [RRSchedule, rrOnePassResult, rrLoop_eq_pass]

/-- The aggregate computation shared, line for line, by the tails of
`FCFSSchedule`, `SJFSchedule` and `SJFPrioritySchedule`: `totalWait` and
`totalTurnaround` are the running sums of the per-row values,
`lastCompletion` is the completion of the final row (its Go zero value 0.0
when there is none), and the three statistics divide by `count` resp.
`lastCompletion`. -/
def scheduleAggregates (rows : List MetricsRow) : Aggregates :=
  let count : ℚ := rows.length
  let totalWait : ℚ := ((rows.map (·.WaitingTime)).sum : Int)
  let totalTurnaround : ℚ := ((rows.map (·.TurnaroundTime)).sum : Int)
  let lastCompletion : ℚ := (((rows.map (·.CompletionTime)).getLast?).getD 0 : Int)
  { aveWait := totalWait / count
    aveTurnaround := totalTurnaround / count
    throughput := count / lastCompletion }

/-- The aggregate tail of `RRSchedule` (lines 283-300): integer totals of
the waiting and turnaround arrays, divided by `n`; throughput is
`n / currentTime`. -/
def RRAggregates (ps : List Process) : Aggregates :=
  let out := RRSchedule ps
  let n : ℚ := ps.length
  let totalWaiting : ℚ := ((out.rows.map (·.WaitingTime)).sum : Int)
  let totalTurnaround : ℚ := ((out.rows.map (·.TurnaroundTime)).sum : Int)
  { aveWait := totalWaiting / n
    aveTurnaround := totalTurnaround / n
    throughput := n / (out.currentTime : ℚ) }

/-- RR emits no completion column; the instant at which an executed process
finishes is the clock value `currentTime` right after its execution, which
the algorithm relates to its row by `turnaroundTime = currentTime -
arrivalTime`.  The completion instant of a row is therefore
`ArrivalTime + TurnaroundTime`. -/
def RRCompletionTime (r : RRRow) : Int :=
  r.ArrivalTime + r.TurnaroundTime

/-! ## Spec-side reference definitions

For the refinement claims (C3, C4, C5) a second definition is written from
the words of the spec and compared with the embedding of the source. -/

/-- Waiting-time recurrence of spec section 4.1 for FCFS, written from the
words of the spec: a clock `serviceTime` starts at 0 and is advanced by
each burst; when `ArrivalTime > 0` the waiting time is
`serviceTime - ArrivalTime` with no clamping, otherwise the value computed
for the previous process is kept (0 for the first process). -/
def fcfsWaitingSpec (serviceTime prevWaiting : Int) : List Process → List Int
  | [] => []
  | p :: rest =>
    let w := if p.ArrivalTime > 0 then serviceTime - p.ArrivalTime else prevWaiting
    w :: fcfsWaitingSpec (serviceTime + p.BurstDuration) w rest

/-- Waiting-time recurrence of spec section 4.2 for SJF, written from the
words of the spec: same clock advancement as FCFS (the clock only ever
advances by bursts, so no idle gap is inserted), but when
`ArrivalTime > 0` the waiting time `serviceTime - ArrivalTime` is clamped
to a minimum of 0. -/
def sjfWaitingSpec (serviceTime prevWaiting : Int) : List Process → List Int
  | [] => []
  | p :: rest =>
    let w := if p.ArrivalTime > 0 then max (serviceTime - p.ArrivalTime) 0 else prevWaiting
    w :: sjfWaitingSpec (serviceTime + p.BurstDuration) w rest

/-- Waiting-time recurrence of spec section 4.3 for SJF-Priority, written
from the words of the spec: identical to the SJF recurrence except that
before the waiting time is computed, if `serviceTime < ArrivalTime` the
clock is advanced to `ArrivalTime`. -/
def sjfPriorityWaitingSpec (serviceTime prevWaiting : Int) : List Process → List Int
  | [] => []
  | p :: rest =>
    let st := if serviceTime < p.ArrivalTime then p.ArrivalTime else serviceTime
    let w := if p.ArrivalTime > 0 then max (st - p.ArrivalTime) 0 else prevWaiting
    w :: sjfPriorityWaitingSpec (st + p.BurstDuration) w rest

/-! ## Helper lemmas -/

theorem clamp_eq_max (t : Int) : (if t < 0 then 0 else t) = max t 0 := by
  rw [max_def]
  split <;> split <;> omega

theorem fcfsRun_identities (st w : Int) (ps : List Process) :
    ∀ r ∈ fcfsRun st w ps,
      r.CompletionTime = r.ArrivalTime + r.WaitingTime + r.BurstDuration ∧
      r.TurnaroundTime = r.WaitingTime + r.BurstDuration := by
  induction ps generalizing st w with
  | nil => simp [fcfsRun]
  | cons p rest ih =>
    intro r hr
    simp only [fcfsRun, List.mem_cons] at hr
    rcases hr with h | h
    · subst h; refine ⟨?_, ?_⟩ <;> simp <;> ring
    · exact ih _ _ r h

theorem sjfRun_identities (st w : Int) (ps : List Process) :
    ∀ r ∈ sjfRun st w ps,
      r.CompletionTime = r.ArrivalTime + r.WaitingTime + r.BurstDuration ∧
      r.TurnaroundTime = r.WaitingTime + r.BurstDuration := by
  induction ps generalizing st w with
  | nil => simp [sjfRun]
  | cons p rest ih =>
    intro r hr
    simp only [sjfRun, List.mem_cons] at hr
    rcases hr with h | h
    · subst h; refine ⟨?_, ?_⟩ <;> simp <;> ring
    · exact ih _ _ r h

theorem sjfPriorityRun_identities (st w : Int) (ps : List Process) :
    ∀ r ∈ sjfPriorityRun st w ps,
      r.CompletionTime = r.ArrivalTime + r.WaitingTime + r.BurstDuration ∧
      r.TurnaroundTime = r.WaitingTime + r.BurstDuration := by
  induction ps generalizing st w with
  | nil => simp [sjfPriorityRun]
  | cons p rest ih =>
    intro r hr
    simp only [sjfPriorityRun, List.mem_cons] at hr
    rcases hr with h | h
    · subst h; refine ⟨?_, ?_⟩ <;> simp <;> ring
    · exact ih _ _ r h

theorem exists_of_mem_zipWith {α β γ : Type} {f : α → β → γ} {c : γ} :
    ∀ {as : List α} {bs : List β}, c ∈ List.zipWith f as bs → ∃ a b, c = f a b
  | [], _, h => by simp [List.zipWith] at h
  | _ :: _, [], h => by simp [List.zipWith] at h
  | a :: as, b :: bs, h => by
    simp only [List.zipWith, List.mem_cons] at h
    rcases h with h | h
    · exact ⟨a, b, h⟩
    · exact exists_of_mem_zipWith h

theorem rr_row_identity (ps : List Process) :
    ∀ r ∈ (RRSchedule ps).rows, r.TurnaroundTime = r.WaitingTime + r.BurstDuration := by
  intro r hr
  simp only [RRSchedule] at hr
  obtain ⟨p, st, rfl⟩ := exists_of_mem_zipWith hr
  simp

/-! ## Claims -/

/-- C1: for every policy and every process in the batch, the metrics
produced satisfy `CompletionTime = ArrivalTime + WaitingTime +
BurstDuration` and `TurnaroundTime = WaitingTime + BurstDuration`.  The RR
table has no completion column; the completion instant of an RR row is
`RRCompletionTime` (the clock value at which the process finished). -/
theorem claim_C1 (ps : List Process) :
    (∀ r ∈ FCFSSchedule ps,
      r.CompletionTime = r.ArrivalTime + r.WaitingTime + r.BurstDuration ∧
      r.TurnaroundTime = r.WaitingTime + r.BurstDuration)
  ∧ (∀ r ∈ SJFSchedule ps,
      r.CompletionTime = r.ArrivalTime + r.WaitingTime + r.BurstDuration ∧
      r.TurnaroundTime = r.WaitingTime + r.BurstDuration)
  ∧ (∀ r ∈ SJFPrioritySchedule ps,
      r.CompletionTime = r.ArrivalTime + r.WaitingTime + r.BurstDuration ∧
      r.TurnaroundTime = r.WaitingTime + r.BurstDuration)
  ∧ (∀ r ∈ (RRSchedule ps).rows,
      r.TurnaroundTime = r.WaitingTime + r.BurstDuration ∧
      RRCompletionTime r = r.ArrivalTime + r.WaitingTime + r.BurstDuration) := by
  refine ⟨fcfsRun_identities 0 0 ps, sjfRun_identities 0 0 _, sjfPriorityRun_identities 0 0 _, ?_⟩
  intro r hr
  have h := rr_row_identity ps r hr
  exact ⟨h, by rw [RRCompletionTime, h]; ring⟩

theorem claim_C1_witness :
    ({ ProcessID := "P1", Priority := 2, BurstDuration := 4, ArrivalTime := 0,
       WaitingTime := 0, TurnaroundTime := 4, CompletionTime := 4 } : MetricsRow).CompletionTime =
      ({ ProcessID := "P1", Priority := 2, BurstDuration := 4, ArrivalTime := 0,
         WaitingTime := 0, TurnaroundTime := 4, CompletionTime := 4 } : MetricsRow).ArrivalTime +
      ({ ProcessID := "P1", Priority := 2, BurstDuration := 4, ArrivalTime := 0,
         WaitingTime := 0, TurnaroundTime := 4, CompletionTime := 4 } : MetricsRow).WaitingTime +
      ({ ProcessID := "P1", Priority := 2, BurstDuration := 4, ArrivalTime := 0,
         WaitingTime := 0, TurnaroundTime := 4, CompletionTime := 4 } : MetricsRow).BurstDuration ∧
    ({ ProcessID := "P1", Priority := 2, BurstDuration := 4, ArrivalTime := 0,
       WaitingTime := 0, TurnaroundTime := 4, CompletionTime := 4 } : MetricsRow).TurnaroundTime =
      ({ ProcessID := "P1", Priority := 2, BurstDuration := 4, ArrivalTime := 0,
         WaitingTime := 0, TurnaroundTime := 4, CompletionTime := 4 } : MetricsRow).WaitingTime +
      ({ ProcessID := "P1", Priority := 2, BurstDuration := 4, ArrivalTime := 0,
         WaitingTime := 0, TurnaroundTime := 4, CompletionTime := 4 } : MetricsRow).BurstDuration :=
  (claim_C1 [⟨"P1", 0, 4, 2, 0, 0⟩]).1
    { ProcessID := "P1", Priority := 2, BurstDuration := 4, ArrivalTime := 0,
      WaitingTime := 0, TurnaroundTime := 4, CompletionTime := 4 } (by decide)

/-- C2: on the batch `P2(burst 3, arrival 1), P1(burst 5, arrival 0),
P3(burst 8, arrival 2)` (already sorted ascending by burst), `RRSchedule`
computes turnaround times `[2, 8, 14]` and waiting times `[-1, 3, 6]` in
that order; the waiting time of P2 is `-1 < 0`, violating the
`WaitingTime >= 0` invariant. -/
theorem claim_C2 :
    ((RRSchedule [⟨"P2", 1, 3, 0, 0, 0⟩, ⟨"P1", 0, 5, 0, 0, 0⟩,
        ⟨"P3", 2, 8, 0, 0, 0⟩]).rows.map (·.ProcessID) = ["P2", "P1", "P3"])
  ∧ ((RRSchedule [⟨"P2", 1, 3, 0, 0, 0⟩, ⟨"P1", 0, 5, 0, 0, 0⟩,
        ⟨"P3", 2, 8, 0, 0, 0⟩]).rows.map (·.TurnaroundTime) = [2, 8, 14])
  ∧ ((RRSchedule [⟨"P2", 1, 3, 0, 0, 0⟩, ⟨"P1", 0, 5, 0, 0, 0⟩,
        ⟨"P3", 2, 8, 0, 0, 0⟩]).rows.map (·.WaitingTime) = [-1, 3, 6])
  ∧ (∃ r ∈ (RRSchedule [⟨"P2", 1, 3, 0, 0, 0⟩, ⟨"P1", 0, 5, 0, 0, 0⟩,
        ⟨"P3", 2, 8, 0, 0, 0⟩]).rows, r.ProcessID = "P2" ∧ r.WaitingTime < 0) := by
  simp only [RRSchedule_eq_onePass]
  decide

/-- C3: `FCFSSchedule` serves processes in the input order, and its
waiting times follow the spec recurrence `fcfsWaitingSpec`: clock starts
at 0 and advances by each burst; `WaitingTime = serviceTime - ArrivalTime`
(unclamped) when `ArrivalTime > 0`, otherwise the previous value is kept
(0 for the first process). -/
theorem claim_C3 (ps : List Process) :
    (FCFSSchedule ps).map (·.ProcessID) = ps.map (·.ProcessID)
  ∧ (FCFSSchedule ps).map (·.WaitingTime) = fcfsWaitingSpec 0 0 ps := by
  have key : ∀ (st w : Int) (l : List Process),
      ((fcfsRun st w l).map (·.ProcessID) = l.map (·.ProcessID)) ∧
      ((fcfsRun st w l).map (·.WaitingTime) = fcfsWaitingSpec st w l) := by
    intro st w l
    induction l generalizing st w with
    | nil => simp [fcfsRun, fcfsWaitingSpec]
    | cons p rest ih =>
      simp only [fcfsRun, fcfsWaitingSpec, List.map_cons]
      exact ⟨by simp [(ih _ _).1], by simp [(ih _ _).2]⟩
  exact key 0 0 ps

/-- C4: `SJFSchedule` first sorts the batch ascending by `BurstDuration`
(the sorted list is a permutation of the input) and then runs the same
clock loop as FCFS with the waiting time clamped to a minimum of 0 when
`ArrivalTime > 0`, the same carry-over for `ArrivalTime = 0`, and a clock
that only ever advances by bursts (no idle gap), per the spec recurrence
`sjfWaitingSpec`. -/
theorem claim_C4 (ps : List Process) :
    (sortByBurst ps).Perm ps
  ∧ List.Sorted burstLE (sortByBurst ps)
  ∧ (SJFSchedule ps).map (·.ProcessID) = (sortByBurst ps).map (·.ProcessID)
  ∧ (SJFSchedule ps).map (·.WaitingTime) = sjfWaitingSpec 0 0 (sortByBurst ps) := by
  have key : ∀ (st w : Int) (l : List Process),
      ((sjfRun st w l).map (·.ProcessID) = l.map (·.ProcessID)) ∧
      ((sjfRun st w l).map (·.WaitingTime) = sjfWaitingSpec st w l) := by
    intro st w l
    induction l generalizing st w with
    | nil => simp [sjfRun, sjfWaitingSpec]
    | cons p rest ih =>
      simp only [sjfRun, sjfWaitingSpec, List.map_cons, clamp_eq_max]
      exact ⟨by simp [(ih _ _).1], by simp [(ih _ _).2, clamp_eq_max]⟩
  exact ⟨List.perm_insertionSort burstLE ps, List.sorted_insertionSort burstLE ps,
    (key 0 0 _).1, (key 0 0 _).2⟩

/-- C5: `SJFPrioritySchedule` uses the same sort as SJF and behaves like
it except that, before the waiting time of a process is computed, the
clock is advanced to the arrival time whenever `serviceTime <
ArrivalTime`, per the spec recurrence `sjfPriorityWaitingSpec`. -/
theorem claim_C5 (ps : List Process) :
    (sortByBurst ps).Perm ps
  ∧ List.Sorted burstLE (sortByBurst ps)
  ∧ (SJFPrioritySchedule ps).map (·.ProcessID) = (sortByBurst ps).map (·.ProcessID)
  ∧ (SJFPrioritySchedule ps).map (·.WaitingTime) =
      sjfPriorityWaitingSpec 0 0 (sortByBurst ps) := by
  have key : ∀ (st w : Int) (l : List Process),
      ((sjfPriorityRun st w l).map (·.ProcessID) = l.map (·.ProcessID)) ∧
      ((sjfPriorityRun st w l).map (·.WaitingTime) = sjfPriorityWaitingSpec st w l) := by
    intro st w l
    induction l generalizing st w with
    | nil => simp [sjfPriorityRun, sjfPriorityWaitingSpec]
    | cons p rest ih =>
      simp only [sjfPriorityRun, sjfPriorityWaitingSpec, List.map_cons, clamp_eq_max]
      exact ⟨by simp [(ih _ _).1], by simp [(ih _ _).2, clamp_eq_max]⟩
  exact ⟨List.perm_insertionSort burstLE ps, List.sorted_insertionSort burstLE ps,
    (key 0 0 _).1, (key 0 0 _).2⟩

theorem rrPass_remaining_nonpos (t : Int) (items : List RRState) :
    ∀ x ∈ (rrPass t items).2.1, x.remainingTime ≤ 0 := by
  induction items generalizing t with
  | nil => simp [rrPass]
  | cons y ys ih =>
    intro x hx
    by_cases h : 0 < y.remainingTime
    · simp only [rrPass, h, if_pos, List.mem_cons] at hx
      rcases hx with rfl | hx
      · simp
      · exact ih _ x hx
    · simp only [rrPass, h, if_neg, not_false_iff, List.mem_cons] at hx
      rcases hx with rfl | hx
      · omega
      · exact ih _ x hx

/-- C6: the repeat-until-done outer loop of `RRSchedule` always
terminates, and its result is that of a single scanning pass (`rrLoop` is
a total function and equals one `rrPass`); after that pass every process
has been run to full completion, i.e. no entry keeps a positive remaining
time, so no second pass executes anything (there is no quantum and no
requeueing in `rrPass`). -/
theorem claim_C6 (t : Int) (items : List RRState) :
    rrLoop t items = ((rrPass t items).1, (rrPass t items).2.1)
  ∧ ∀ x ∈ (rrPass t items).2.1, x.remainingTime ≤ 0 :=
  ⟨rrLoop_eq_pass t items, rrPass_remaining_nonpos t items⟩

theorem claim_C6_witness :
    rrLoop 0 [⟨2, 0, 0⟩] = ((rrPass 0 [⟨2, 0, 0⟩]).1, (rrPass 0 [⟨2, 0, 0⟩]).2.1)
  ∧ (⟨0, 0, 2⟩ : RRState).remainingTime ≤ 0 :=
  ⟨(claim_C6 0 [⟨2, 0, 0⟩]).1, (claim_C6 0 [⟨2, 0, 0⟩]).2 ⟨0, 0, 2⟩ (by decide)⟩

/-- C7: contrary to the claim, no policy raises an `EmptyBatchError` on an
empty batch — the source has no error handling at all.  Each policy runs
to the aggregate computation with an empty row list, where the Go code
divides by `count = 0` (and for RR by `currentTime = 0`), producing
NaN/Inf float aggregates.  This theorem evaluates the code at the failing
input: the empty batch yields empty rows and zero divisors. -/
theorem claim_C7_empty_batch :
    FCFSSchedule [] = []
  ∧ SJFSchedule [] = []
  ∧ SJFPrioritySchedule [] = []
  ∧ (RRSchedule []).rows = []
  ∧ (FCFSSchedule []).length = 0
  ∧ (RRSchedule []).currentTime = 0 := by
  simp only [RRSchedule_eq_onePass]
  decide

/-- C8 counterexample: the claim fails on a single-process batch whose
process arrives after time 0.  For `P1` with arrival 1 and burst 5,
`FCFSSchedule` computes `WaitingTime = 0 - 1 = -1`, not 0 (and
`SJFSchedule` gives `CompletionTime = 6`, not the burst 5). -/
theorem claim_C8_counterexample :
    (FCFSSchedule [⟨"P1", 1, 5, 0, 0, 0⟩]).map (·.WaitingTime) = [-1]
  ∧ ((-1 : Int) ≠ 0)
  ∧ (SJFSchedule [⟨"P1", 1, 5, 0, 0, 0⟩]).map (·.CompletionTime) = [6]
  ∧ ((6 : Int) ≠ 5) := by
  decide

/-- C8 (amended): for every batch of exactly one process with
`ArrivalTime = 0` and positive burst (the intended domain), each policy
produces `WaitingTime = 0` and `TurnaroundTime = CompletionTime =
BurstDuration` (for RR, the finishing clock), and reports
`throughput = 1 / CompletionTime`. -/
theorem claim_C8 (p : Process) (h0 : p.ArrivalTime = 0) (h1 : 0 < p.BurstDuration) :
    FCFSSchedule [p] =
      [⟨p.ProcessID, p.Priority, p.BurstDuration, 0, 0, p.BurstDuration, p.BurstDuration⟩]
  ∧ SJFSchedule [p] =
      [⟨p.ProcessID, p.Priority, p.BurstDuration, 0, 0, p.BurstDuration, p.BurstDuration⟩]
  ∧ SJFPrioritySchedule [p] =
      [⟨p.ProcessID, p.Priority, p.BurstDuration, 0, 0, p.BurstDuration, p.BurstDuration⟩]
  ∧ (RRSchedule [p]).rows =
      [⟨p.ProcessID, p.Priority, p.BurstDuration, 0, 0, p.BurstDuration⟩]
  ∧ (RRSchedule [p]).currentTime = p.BurstDuration
  ∧ (scheduleAggregates (FCFSSchedule [p])).throughput = 1 / (p.BurstDuration : ℚ)
  ∧ (scheduleAggregates (SJFSchedule [p])).throughput = 1 / (p.BurstDuration : ℚ)
  ∧ (scheduleAggregates (SJFPrioritySchedule [p])).throughput = 1 / (p.BurstDuration : ℚ)
  ∧ (RRAggregates [p]).throughput = 1 / (p.BurstDuration : ℚ) := by
  obtain ⟨pid, arr, b, prio, rem, idx⟩ := p
  simp only at h0 h1
  subst h0
  have hrow : fcfsRun 0 0 [⟨pid, 0, b, prio, rem, idx⟩] = [⟨pid, prio, b, 0, 0, b, b⟩] := by
    simp [fcfsRun]
  have hsort : sortByBurst [⟨pid, 0, b, prio, rem, idx⟩] = [⟨pid, 0, b, prio, rem, idx⟩] := by
    simp [sortByBurst]
  have hsjf : SJFSchedule [⟨pid, 0, b, prio, rem, idx⟩] = [⟨pid, prio, b, 0, 0, b, b⟩] := by
    simp [SJFSchedule, hsort, sjfRun]
  have hsjfp : SJFPrioritySchedule [⟨pid, 0, b, prio, rem, idx⟩] =
      [⟨pid, prio, b, 0, 0, b, b⟩] := by
    simp [SJFPrioritySchedule, hsort, sjfPriorityRun]
  have hrr : RRSchedule [⟨pid, 0, b, prio, rem, idx⟩] =
      { rows := [⟨pid, prio, b, 0, 0, b⟩], currentTime := b } := by
    rw [RRSchedule_eq_onePass]
    simp [rrOnePassResult, hsort, rrInit, rrPass, h1]
  refine ⟨hrow, hsjf, hsjfp, by rw [hrr], by rw [hrr], ?_, ?_, ?_, ?_⟩
  · rw [FCFSSchedule, hrow]; simp [scheduleAggregates]
  · rw [hsjf]; simp [scheduleAggregates]
  · rw [hsjfp]; simp [scheduleAggregates]
  · rw [RRAggregates, hrr]; simp

theorem claim_C8_witness :
    FCFSSchedule [⟨"P1", 0, 4, 7, 0, 0⟩] = [⟨"P1", 7, 4, 0, 0, 4, 4⟩]
  ∧ SJFSchedule [⟨"P1", 0, 4, 7, 0, 0⟩] = [⟨"P1", 7, 4, 0, 0, 4, 4⟩]
  ∧ SJFPrioritySchedule [⟨"P1", 0, 4, 7, 0, 0⟩] = [⟨"P1", 7, 4, 0, 0, 4, 4⟩]
  ∧ (RRSchedule [⟨"P1", 0, 4, 7, 0, 0⟩]).rows = [⟨"P1", 7, 4, 0, 0, 4⟩]
  ∧ (RRSchedule [⟨"P1", 0, 4, 7, 0, 0⟩]).currentTime = 4
  ∧ (scheduleAggregates (FCFSSchedule [⟨"P1", 0, 4, 7, 0, 0⟩])).throughput = 1 / ((4 : Int) : ℚ)
  ∧ (scheduleAggregates (SJFSchedule [⟨"P1", 0, 4, 7, 0, 0⟩])).throughput = 1 / ((4 : Int) : ℚ)
  ∧ (scheduleAggregates (SJFPrioritySchedule [⟨"P1", 0, 4, 7, 0, 0⟩])).throughput =
      1 / ((4 : Int) : ℚ)
  ∧ (RRAggregates [⟨"P1", 0, 4, 7, 0, 0⟩]).throughput = 1 / ((4 : Int) : ℚ) :=
  claim_C8 ⟨"P1", 0, 4, 7, 0, 0⟩ rfl (by decide)

theorem sjfRun_waiting_nonneg (st w : Int) (hw : 0 ≤ w) (ps : List Process) :
    ∀ r ∈ sjfRun st w ps, 0 ≤ r.WaitingTime := by
  induction ps generalizing st w with
  | nil => simp [sjfRun]
  | cons p rest ih =>
    intro r hr
    simp only [sjfRun, List.mem_cons] at hr
    have hw' : 0 ≤ (if p.ArrivalTime > 0 then
        (let t := st - p.ArrivalTime; if t < 0 then 0 else t) else w) := by
      split
      · simp only; split <;> omega
      · exact hw
    rcases hr with h | h
    · subst h; simpa using hw'
    · exact ih _ _ hw' r h

theorem sjfPriorityRun_waiting_nonneg (st w : Int) (hw : 0 ≤ w) (ps : List Process) :
    ∀ r ∈ sjfPriorityRun st w ps, 0 ≤ r.WaitingTime := by
  induction ps generalizing st w with
  | nil => simp [sjfPriorityRun]
  | cons p rest ih =>
    intro r hr
    simp only [sjfPriorityRun, List.mem_cons] at hr
    have hw' : 0 ≤ (if p.ArrivalTime > 0 then
        (let t := (if p.ArrivalTime > st then p.ArrivalTime else st) - p.ArrivalTime;
         if t < 0 then 0 else t) else w) := by
      split
      · simp only; split <;> omega
      · exact hw
    rcases hr with h | h
    · subst h; simpa using hw'
    · exact ih _ _ hw' r h

/-- C9: every waiting time produced by `SJFSchedule` and
`SJFPrioritySchedule` is nonnegative (the clamp when `ArrivalTime > 0`,
and the carried-over value, which starts at 0, is itself always
nonnegative), unlike `FCFSSchedule` and `RRSchedule`, which both produce
the negative waiting time -1 on the batch `[P1(arrival 1, burst 5)]`. -/
theorem claim_C9 (ps : List Process) :
    (∀ r ∈ SJFSchedule ps, 0 ≤ r.WaitingTime)
  ∧ (∀ r ∈ SJFPrioritySchedule ps, 0 ≤ r.WaitingTime)
  ∧ (∃ r ∈ FCFSSchedule [⟨"P1", 1, 5, 0, 0, 0⟩], r.WaitingTime < 0)
  ∧ (∃ r ∈ (RRSchedule [⟨"P1", 1, 5, 0, 0, 0⟩]).rows, r.WaitingTime < 0) := by
  refine ⟨sjfRun_waiting_nonneg 0 0 le_rfl _, sjfPriorityRun_waiting_nonneg 0 0 le_rfl _,
    by decide, ?_⟩
  simp only [RRSchedule_eq_onePass]
  decide

theorem claim_C9_witness :
    0 ≤ ({ ProcessID := "P2", Priority := 0, BurstDuration := 3, ArrivalTime := 1,
           WaitingTime := 0, TurnaroundTime := 3, CompletionTime := 4 } : MetricsRow).WaitingTime :=
  (claim_C9 [⟨"P2", 1, 3, 0, 0, 0⟩]).1
    { ProcessID := "P2", Priority := 0, BurstDuration := 3, ArrivalTime := 1,
      WaitingTime := 0, TurnaroundTime := 3, CompletionTime := 4 } (by decide)

/-- C10 counterexample: with a burst duration outside the intended
positive domain the claim fails: on the one-process batch with burst -1
the RR clock never advances (`currentTime = 0`), while the burst sum is
-1. -/
theorem claim_C10_counterexample :
    (RRSchedule [⟨"P1", 0, -1, 0, 0, 0⟩]).currentTime = 0
  ∧ (([⟨"P1", 0, -1, 0, 0, 0⟩] : List Process).map (·.BurstDuration)).sum = -1
  ∧ ((0 : Int) ≠ -1) := by
  refine ⟨?_, by decide, by decide⟩
  simp only [RRSchedule_eq_onePass]
  decide

theorem rrPass_time_of_pos (t : Int) (items : List RRState)
    (h : ∀ x ∈ items, 0 < x.remainingTime) :
    (rrPass t items).1 = t + (items.map (·.remainingTime)).sum := by
  induction items generalizing t with
  | nil => simp [rrPass]
  | cons x xs ih =>
    have hx : 0 < x.remainingTime := h x (List.mem_cons_self x xs)
    simp only [rrPass, hx, if_pos, List.map_cons, List.sum_cons]
    rw [ih _ fun y hy => h y (List.mem_cons_of_mem x hy)]
    ring

/-- C10 (amended): for every non-empty batch whose burst durations are
all positive (the intended domain), the final RR clock equals the sum of
all burst durations, and the reported throughput is the process count
divided by that sum — independent of arrival times and of the sort
order, since the sorted list is a permutation of the input. -/
theorem claim_C10 (ps : List Process) (_hne : ps ≠ [])
    (hb : ∀ p ∈ ps, 0 < p.BurstDuration) :
    (RRSchedule ps).currentTime = (ps.map (·.BurstDuration)).sum
  ∧ (RRAggregates ps).throughput =
      (ps.length : ℚ) / (((ps.map (·.BurstDuration)).sum : Int) : ℚ) := by
  have hperm : (sortByBurst ps).Perm ps := List.perm_insertionSort burstLE ps
  have hsum : ((sortByBurst ps).map (·.BurstDuration)).sum =
      (ps.map (·.BurstDuration)).sum := (hperm.map (·.BurstDuration)).sum_eq
  have hpos : ∀ x ∈ rrInit (sortByBurst ps), 0 < x.remainingTime := by
    intro x hx
    simp only [rrInit, List.mem_map] at hx
    obtain ⟨p, hp, rfl⟩ := hx
    exact hb p (hperm.mem_iff.mp hp)
  have hmapr : ((rrInit (sortByBurst ps)).map (·.remainingTime)) =
      (sortByBurst ps).map (·.BurstDuration) := by
    simp [rrInit, List.map_map, Function.comp]
  have hclock : (RRSchedule ps).currentTime = (ps.map (·.BurstDuration)).sum := by
    simp only [RRSchedule, rrLoop_eq_pass]
    rw [rrPass_time_of_pos _ _ hpos, hmapr, hsum, zero_add]
  refine ⟨hclock, ?_⟩
  rw [RRAggregates]
  simp only [hclock]

theorem claim_C10_witness :
    (RRSchedule [⟨"A", 1, 2, 0, 0, 0⟩, ⟨"B", 0, 3, 0, 0, 0⟩]).currentTime =
      (([⟨"A", 1, 2, 0, 0, 0⟩, ⟨"B", 0, 3, 0, 0, 0⟩] : List Process).map (·.BurstDuration)).sum
  ∧ (RRAggregates [⟨"A", 1, 2, 0, 0, 0⟩, ⟨"B", 0, 3, 0, 0, 0⟩]).throughput =
      (([⟨"A", 1, 2, 0, 0, 0⟩, ⟨"B", 0, 3, 0, 0, 0⟩] : List Process).length : ℚ) /
        (((([⟨"A", 1, 2, 0, 0, 0⟩, ⟨"B", 0, 3, 0, 0, 0⟩] : List Process).map
          (·.BurstDuration)).sum : Int) : ℚ) :=
  claim_C10 [⟨"A", 1, 2, 0, 0, 0⟩, ⟨"B", 0, 3, 0, 0, 0⟩] (by decide) (by decide)
